import Mathlib

/-!
Shallow embedding of the copy-emoji-com core logic:
- `EmojiData` catalog (src/js/emoji-data.js): parsing, category queries, ranked search,
  match highlighting.
- `RecentlyUsed` store (src/unnamed/part_000, class RecentlyUsed): bounded, deduplicating,
  persisted list of recently used emojis.
- `EmojiCopyManager` (src/js/emoji-copy-manager.js): copy orchestration with listener fan-out.

JavaScript strings are modelled as Lean `String`/`List Char`; `toLowerCase` as a `Char.toLower`
map and `trim` as dropping whitespace on both ends.  Fallible operations return `Except String`,
the error string mirroring the JS `Error` message.  `Date.now()` is an explicit `now : Nat`
argument.  Raw persisted records model property presence with `Option` fields
(`hasOwnProperty` = `isSome`).
-/

deriving instance DecidableEq for Except

namespace EmojiCopy

/-! ### Data model -/

/-- An emoji record as held by the catalog and the recently-used store
(the five required fields of src/js/emoji-data.js `parseEmojiData`). -/
structure Emoji where
  unicode : String
  name : String
  category : String
  keywords : List String
  codepoint : String
deriving Repr, DecidableEq, Inhabited

/-- A recently-used entry: an emoji plus the `timestamp: Date.now()` added by
`RecentlyUsed.add` (src/unnamed/part_000 line 457). -/
structure Entry where
  unicode : String
  name : String
  category : String
  keywords : List String
  codepoint : String
  timestamp : Nat
deriving Repr, DecidableEq, Inhabited

/-! ### String helpers mirroring the JS primitives -/

/-- JS `String.prototype.toLowerCase`, at the simple per-character level. -/
def jsToLower (s : String) : String := ⟨s.data.map Char.toLower⟩

/-- JS whitespace test used by `trim` (space, tab, newline, carriage return). -/
def isWhite (c : Char) : Bool := c == ' ' || c == '\t' || c == '\n' || c == '\r'

/-- JS `String.prototype.trim`: drop whitespace from both ends. -/
def jsTrim (s : String) : String :=
  ⟨((s.data.dropWhile isWhite).reverse.dropWhile isWhite).reverse⟩

/-- `query.toLowerCase().trim()` as performed by `search` (emoji-data.js line 174). -/
def normTerm (q : String) : String := jsTrim (jsToLower q)

/-- Lowercase a character list (`lcl` = lower-cased list). -/
def lcl (l : List Char) : List Char := l.map Char.toLower

/-- `needle` is a leading segment of `hay` (JS `String.prototype.startsWith`). -/
def startsWithL (needle hay : List Char) : Bool :=
  match needle, hay with
  | [], _ => true
  | _ :: _, [] => false
  | n :: ns, h :: hs => n == h && startsWithL ns hs

/-- `needle` occurs as a contiguous segment of `hay` (JS `String.prototype.includes`). -/
def containsL (needle : List Char) : List Char → Bool
  | [] => needle.isEmpty
  | c :: cs => startsWithL needle (c :: cs) || containsL needle cs

/-! ### RecentlyUsed store (src/unnamed/part_000 lines 410-701) -/

/-- In-memory state of the `RecentlyUsed` class: `#recentEmojis` and `#maxEmojis`. -/
structure Store where
  entries : List Entry
  maxEntries : Nat
deriving Repr, DecidableEq

/-- A store as first constructed: empty entries, capacity `m` (`#maxEmojis` defaults to 20). -/
def freshStore (m : Nat) : Store := { entries := [], maxEntries := m }

/-- The `emojiCopy` object built by `add` (lines 451-458): a clean copy of the
emoji plus `timestamp`. -/
def entryOfEmoji (e : Emoji) (now : Nat) : Entry :=
  { unicode := e.unicode, name := e.name, category := e.category,
    keywords := e.keywords, codepoint := e.codepoint, timestamp := now }

/-- The public projection used by `get` (lines 489-495): the five emoji fields,
timestamp excluded. -/
def Entry.toEmoji (en : Entry) : Emoji :=
  { unicode := en.unicode, name := en.name, category := en.category,
    keywords := en.keywords, codepoint := en.codepoint }

/-- `RecentlyUsed.add` after its validation step (lines 450-477): filter out an
existing entry with the same unicode, unshift the fresh copy, truncate to
`#maxEmojis` (the slice is a no-op at or below capacity, so `take` models it). -/
def Store.add (st : Store) (e : Emoji) (now : Nat) : Store :=
  let copy := entryOfEmoji e now
  let filtered := st.entries.filter (fun existing => existing.unicode ≠ copy.unicode)
  { st with entries := (copy :: filtered).take st.maxEntries }

/-- `RecentlyUsed.get` (lines 483-496): defensive copies of the entries, most recent
first, timestamp stripped. -/
def Store.get (st : Store) : List Emoji := st.entries.map Entry.toEmoji

/-- A JS argument value as classified by `contains`/`remove`: null-ish, a string,
or some non-string value. -/
inductive JSArg where
  | nullArg
  | strArg (s : String)
  | nonString
deriving Repr, DecidableEq

/-- The shared guard `!unicode || typeof unicode !== 'string'` of `contains` (line 528)
and `remove` (line 557); the empty string is falsy. -/
def JSArg.isInvalidUnicode : JSArg → Bool
  | .nullArg => true
  | .nonString => true
  | .strArg s => s == ""

/-- `RecentlyUsed.contains` (lines 527-537): `false` for invalid input, otherwise a
membership test by unicode. -/
def Store.containsArg (st : Store) (a : JSArg) : Bool :=
  if a.isInvalidUnicode then false
  else
    match a with
    | .strArg s => st.entries.any (fun en => en.unicode == s)
    | _ => false

/-- `RecentlyUsed.remove` (lines 556-576): throws for invalid input, otherwise filters
by unicode and reports whether an entry was removed. -/
def Store.removeArg (st : Store) (a : JSArg) : Except String (Store × Bool) :=
  if a.isInvalidUnicode then .error "Invalid unicode provided"
  else
    match a with
    | .strArg s =>
        let filtered := st.entries.filter (fun en => en.unicode ≠ s)
        .ok ({ st with entries := filtered }, filtered.length < st.entries.length)
    | _ => .error "Invalid unicode provided"

/-! ### Persistence (save/load, src/unnamed/part_000 lines 582-646) -/

/-- A raw persisted record: `Option` marks property presence (`hasOwnProperty`).
The `keywords` field is doubly optional: outer `Option` is presence, inner `Option`
distinguishes an array value (`some`) from a present non-array value (`none`),
which `Array.isArray` checks normalise to `[]`. -/
structure RawRecord where
  unicode : Option String
  name : Option String
  category : Option String
  keywords : Option (Option (List String))
  codepoint : Option String
  timestamp : Option Nat
deriving Repr, DecidableEq, Inhabited

/-- One element of the stored `emojis` array: either not an object, or an object. -/
inductive RawElem where
  | notObject
  | obj (r : RawRecord)
deriving Repr, DecidableEq

/-- `#isValidEmojiObject` (lines 639-646): an object with the five required
properties present. -/
def isValidEmojiObject : RawElem → Bool
  | .notObject => false
  | .obj r =>
      r.unicode.isSome && r.name.isSome && r.category.isSome &&
      r.keywords.isSome && r.codepoint.isSome

/-- Read a validated raw record back as an internal entry.  Exact for records written
by `save` (all fields present, keywords an array); the `getD` defaults are never
reached on those. -/
def rawToEntry (r : RawRecord) : Entry :=
  { unicode := r.unicode.getD "", name := r.name.getD "", category := r.category.getD "",
    keywords := (r.keywords.getD none).getD [], codepoint := r.codepoint.getD "",
    timestamp := r.timestamp.getD 0 }

/-- Serialise an entry as the raw object `JSON.stringify` writes: every field present. -/
def entryToRaw (en : Entry) : RawRecord :=
  { unicode := some en.unicode, name := some en.name, category := some en.category,
    keywords := some (some en.keywords), codepoint := some en.codepoint,
    timestamp := some en.timestamp }

/-- The value found under the storage key, as `load` discriminates it (lines 602-631):
no key, content `JSON.parse` rejects, parsed content without a proper `emojis` array,
or parsed content with an `emojis` array (plus the version/lastUpdated fields `save`
writes and `load` ignores). -/
inductive StoredValue where
  | missing
  | unparseable
  | parsedNonArray
  | parsedArray (records : List RawElem) (version : String) (lastUpdated : Nat)
deriving Repr, DecidableEq

/-- Outcome of `load`: the hydrated entries and the returned boolean. -/
structure LoadResult where
  entries : List Entry
  success : Bool
deriving Repr, DecidableEq

/-- `RecentlyUsed.save` (lines 582-596): writes `{emojis, version: '1.0', lastUpdated}`. -/
def Store.save (st : Store) (now : Nat) : StoredValue :=
  .parsedArray (st.entries.map (fun en => .obj (entryToRaw en))) "1.0" now

/-- `RecentlyUsed.load` (lines 602-631).  Missing key: empty list, returns `true`.
Unparseable content: the `JSON.parse` exception reaches the catch block, which logs
`console.error`, resets the list and returns `false`.  Parsed content without an
`emojis` array: `console.warn`, empty list, returns `true`.  Otherwise: keep the
records passing `#isValidEmojiObject`, truncate to `maxEntries`, return `true`. -/
def load (maxEntries : Nat) : StoredValue → LoadResult
  | .missing => ⟨[], true⟩
  | .unparseable => ⟨[], false⟩
  | .parsedNonArray => ⟨[], true⟩
  | .parsedArray rs _ _ =>
      ⟨(rs.filterMap (fun el =>
          match el with
          | .obj r => if isValidEmojiObject (.obj r) then some (rawToEntry r) else none
          | .notObject => none)).take maxEntries, true⟩

/-! ### Field validation shared by `parseEmojiData` and `RecentlyUsed.add` -/

/-- The required-field list, in the order both validation loops walk it. -/
def requiredFields : List String :=
  ["unicode", "name", "category", "keywords", "codepoint"]

/-- Does the raw record have the property named `f`? -/
def RawRecord.hasField (r : RawRecord) : String → Bool
  | "unicode" => r.unicode.isSome
  | "name" => r.name.isSome
  | "category" => r.category.isSome
  | "keywords" => r.keywords.isSome
  | "codepoint" => r.codepoint.isSome
  | _ => false

/-- The required fields the record is missing, in checking order. -/
def missingFields (r : RawRecord) : List String :=
  requiredFields.filter (fun f => !(r.hasField f))

/-- The first missing required field, if any (where both validation loops throw). -/
def firstMissing (r : RawRecord) : Option String := (missingFields r).head?

/-- `EmojiData.parseEmojiData` (emoji-data.js lines 72-88): reject on the first missing
required field, else normalise (`name` lowercased, non-array `keywords` to `[]`). -/
def parseEmojiData (r : RawRecord) : Except String Emoji :=
  match firstMissing r with
  | some f => .error ("Missing required field: " ++ f)
  | none =>
      .ok { unicode := r.unicode.getD "", name := jsToLower (r.name.getD ""),
            category := r.category.getD "", keywords := (r.keywords.getD none).getD [],
            codepoint := r.codepoint.getD "" }

/-- `RecentlyUsed.add` on a raw record (lines 432-477): throw on the first missing
required property, else build the copy (name not lowercased here) and mutate. -/
def Store.addRecord (st : Store) (r : RawRecord) (now : Nat) :
    Except String (Store × Bool) :=
  match firstMissing r with
  | some f => .error ("Emoji object missing required property: " ++ f)
  | none =>
      let e : Emoji :=
        { unicode := r.unicode.getD "", name := r.name.getD "",
          category := r.category.getD "", keywords := (r.keywords.getD none).getD [],
          codepoint := r.codepoint.getD "" }
      .ok (st.add e now, true)

/-! ### Search highlighting (emoji-data.js lines 255-270)

`#highlightText` builds `new RegExp(escapedTerm, 'gi')` from the regex-escaped term and
replaces with `<mark>$1</mark>`.  Since `#escapeRegExp` escapes every special character,
the pattern denotes the literal term; the `g` and `i` flags make `replace` wrap every
leftmost non-overlapping case-insensitive occurrence.  `markAllAux` embeds exactly that
replacement, fuelled by the text length so that it reduces structurally. -/

def markOpen : List Char := "<mark>".data

def markClose : List Char := "</mark>".data

/-- Wrap every leftmost non-overlapping case-insensitive occurrence of `term` in the
mark tags, scanning left to right; `fuel` bounds the recursion by the text length. -/
def markAllAux (term : List Char) : Nat → List Char → List Char
  | _, [] => []
  | 0, text => text
  | fuel + 1, c :: cs =>
      if term ≠ [] ∧ lcl (List.take term.length (c :: cs)) = lcl term then
        markOpen ++ List.take term.length (c :: cs) ++ markClose ++
          markAllAux term fuel (List.drop term.length (c :: cs))
      else c :: markAllAux term fuel cs

/-- The global case-insensitive literal replacement performed by `#highlightText`. -/
def markAll (term text : List Char) : List Char := markAllAux term text.length text

/-- `#highlightText` (lines 255-260): falsy term or text is returned unchanged. -/
def highlightText (text searchTerm : String) : String :=
  if searchTerm == "" || text == "" then text
  else ⟨markAll searchTerm.data text.data⟩

/-- A case-insensitive occurrence of `term` starts at index `i` of `text`. -/
def ciMatchAt (term text : List Char) (i : Nat) : Bool :=
  lcl ((text.drop i).take term.length) == lcl term

/-! ### Search (emoji-data.js lines 165-246) -/

/-- The object returned by `#getMatchInfo` (lines 219-246). -/
structure MatchInfo where
  isMatch : Bool
  exactNameMatch : Bool
  nameStartsWithQuery : Bool
  nameContainsQuery : Bool
  keywordMatches : List String
  highlightedName : String
  highlightedKeywords : List String
deriving Repr, DecidableEq, Inhabited

/-- `#getMatchInfo emoji searchTerm`: facets over the lowercased name and keywords,
plus the highlight renderings (name in original case, keywords lowercased). -/
def getMatchInfo (e : Emoji) (searchTerm : String) : MatchInfo :=
  let name := jsToLower e.name
  let keywords := e.keywords.map jsToLower
  let exactNameMatch := name == searchTerm
  let nameStartsWithQuery := startsWithL searchTerm.data name.data
  let nameContainsQuery := containsL searchTerm.data name.data
  let keywordMatches := keywords.filter (fun k => containsL searchTerm.data k.data)
  { isMatch := exactNameMatch || nameStartsWithQuery || nameContainsQuery ||
      decide (0 < keywordMatches.length),
    exactNameMatch := exactNameMatch,
    nameStartsWithQuery := nameStartsWithQuery,
    nameContainsQuery := nameContainsQuery,
    keywordMatches := keywordMatches,
    highlightedName := highlightText e.name searchTerm,
    highlightedKeywords := keywords.map (fun k => highlightText k searchTerm) }

/-- A search result: the emoji spread together with its `matchInfo` (lines 184-187). -/
structure SearchResult where
  emoji : Emoji
  matchInfo : MatchInfo
deriving Repr, DecidableEq, Inhabited

/-- The tie-break tuple the sort comparator (lines 192-207) inspects:
exact match, starts-with, contains, keyword-match count. -/
def tieKey (m : MatchInfo) : Bool × Bool × Bool × Nat :=
  (m.exactNameMatch, m.nameStartsWithQuery, m.nameContainsQuery, m.keywordMatches.length)

/-- `searchLE a b` holds iff the sort comparator returns a non-positive number on
`(a, b)`: each boolean tier strictly dominates the next, the last tier ordering by
descending keyword-match count. -/
def searchLE (a b : MatchInfo) : Bool :=
  if a.exactNameMatch != b.exactNameMatch then a.exactNameMatch
  else if a.nameStartsWithQuery != b.nameStartsWithQuery then a.nameStartsWithQuery
  else if a.nameContainsQuery != b.nameContainsQuery then a.nameContainsQuery
  else b.keywordMatches.length ≤ a.keywordMatches.length

/-- The comparator lifted to results (it reads only `matchInfo`). -/
def resultLE (a b : SearchResult) : Bool := searchLE a.matchInfo b.matchInfo

/-- The match collection loop of `search` (lines 179-189), in catalog order. -/
def searchMatches (emojis : List Emoji) (searchTerm : String) : List SearchResult :=
  emojis.filterMap (fun e =>
    let mi := getMatchInfo e searchTerm
    if mi.isMatch then some ⟨e, mi⟩ else none)

/-- The two shapes `search` returns: the plain catalog copy for blank queries, or
ranked results. -/
inductive SearchOutput where
  | all (emojis : List Emoji)
  | ranked (results : List SearchResult)
deriving Repr, DecidableEq

/-- `EmojiData.search` on a loaded catalog (lines 165-210).  Falsy or blank-after-
normalisation queries return the full set; otherwise matches are collected in catalog
order and sorted by the comparator.  ES2019 `Array.prototype.sort` is stable, so the
sort is embedded as a stable merge sort under `resultLE`. -/
def search (emojis : List Emoji) (query : Option String) : SearchOutput :=
  match query with
  | none => .all emojis
  | some q =>
      if q = "" then .all emojis
      else if normTerm q = "" then .all emojis
      else .ranked ((searchMatches emojis (normTerm q)).mergeSort resultLE)

/-! ### Catalog state and query operations (emoji-data.js) -/

/-- The class-level state of `EmojiData`: `#emojis`, `#categories`, `#isLoaded`. -/
structure CatalogState where
  emojis : List Emoji
  categories : List String
  isLoaded : Bool
deriving Repr, DecidableEq

/-- The message of the error thrown by query operations before `loadEmojis`. -/
def notLoadedMsg : String := "Emoji data not loaded. Call loadEmojis() first."

/-- `getByCategory` (lines 95-105): not-loaded check first, then the falsy/non-string
category check, then the filter. -/
def getByCategory (st : CatalogState) (category : String) : Except String (List Emoji) :=
  if !st.isLoaded then .error notLoadedMsg
  else if category = "" then .error "Category must be a non-empty string"
  else .ok (st.emojis.filter (fun e => e.category == category))

/-- `getAllCategories` (lines 111-117): not-loaded check, then the sorted category set. -/
def getAllCategories (st : CatalogState) : Except String (List String) :=
  if !st.isLoaded then .error notLoadedMsg
  else .ok (st.categories.mergeSort (fun a b => a ≤ b))

/-- `search` including its not-loaded guard (lines 166-168). -/
def searchCatalog (st : CatalogState) (query : Option String) :
    Except String SearchOutput :=
  if !st.isLoaded then .error notLoadedMsg
  else .ok (search st.emojis query)

/-- Insertion into the suggestion `Set` (JS sets preserve insertion order). -/
def addSuggestion (acc : List String) (s : String) : List String :=
  if acc.contains s then acc else acc ++ [s]

/-- The collection loop of `getSearchSuggestions` (lines 292-308): per emoji, add the
name then matching keywords, breaking once `limit` distinct suggestions exist. -/
def collectSuggestions (query : String) (limit : Nat) :
    List Emoji → List String → List String
  | [], acc => acc
  | e :: rest, acc =>
      let acc1 :=
        if startsWithL query.data (jsToLower e.name).data then addSuggestion acc e.name
        else acc
      let acc2 := e.keywords.foldl
        (fun a k => if startsWithL query.data (jsToLower k).data then addSuggestion a k
                    else a) acc1
      if limit ≤ acc2.length then acc2 else collectSuggestions query limit rest acc2

/-- `getSearchSuggestions` (lines 278-311): not-loaded check, falsy/blank query checks,
then the bounded scan. -/
def getSearchSuggestions (st : CatalogState) (partialQuery : Option String)
    (limit : Nat) : Except String (List String) :=
  if !st.isLoaded then .error notLoadedMsg
  else
    match partialQuery with
    | none => .ok []
    | some q =>
        if q = "" then .ok []
        else
          let query := normTerm q
          if query = "" then .ok []
          else .ok ((collectSuggestions query limit st.emojis []).take limit)

/-- `getCategoryCount` (lines 143-149): not-loaded check, then `getByCategory` again. -/
def getCategoryCount (st : CatalogState) (category : String) : Except String Nat :=
  if !st.isLoaded then .error notLoadedMsg
  else
    match getByCategory st category with
    | .ok l => .ok l.length
    | .error e => .error e

/-- `hasCategory` (lines 156-158): a bare set-membership test, with no `#isLoaded`
check.  `Except`-typed like the other queries to record that it never errors. -/
def hasCategoryE (st : CatalogState) (category : String) : Except String Bool :=
  .ok (st.categories.contains category)

/-! ### Copy coordination (src/js/emoji-copy-manager.js lines 36-102, 336-344) -/

/-- The event object passed to copy listeners. -/
structure CopyEvent where
  emoji : Emoji
  success : Bool
  error : Option String
  timestamp : Nat
deriving Repr, DecidableEq

/-- How the injected clipboard collaborator behaves: returns a boolean, or throws. -/
inductive ClipboardBehavior where
  | ret (success : Bool)
  | throws (msg : String)
deriving Repr, DecidableEq

/-- How `RecentlyUsed.add` behaves when invoked by the coordinator. -/
inductive AddBehavior where
  | succeeds
  | throws (msg : String)
deriving Repr, DecidableEq

/-- Everything observable about one `copyEmoji` call: returned value or exception,
resulting store, the events delivered per registered listener, and whether an add
failure was swallowed into a log line. -/
structure CopyOutcome where
  result : Except String Bool
  store : Store
  notifications : List (Nat × CopyEvent)
  addFailureLogged : Bool
deriving Repr, DecidableEq

/-- `#notifyListeners` (lines 336-344): deliver the same event to every registered
listener (each wrapped in its own try/catch). -/
def notifyListeners (listeners : List Nat) (ev : CopyEvent) : List (Nat × CopyEvent) :=
  listeners.map (fun l => (l, ev))

/-- `EmojiCopyManager.copyEmoji` (lines 36-102).  A missing/falsy `unicode` throws
before the try block (no notifications).  Then: clipboard success `true` attempts
`RecentlyUsed.add` when `addToRecent` (a throw there is caught and logged), notifies
`success: true`, returns `true`; success `false` notifies with the fixed error text
and returns `false`; a clipboard throw is caught, notified with the error message,
and re-thrown. -/
def copyEmoji (e : Emoji) (addToRecent : Bool) (clip : ClipboardBehavior)
    (addB : AddBehavior) (listeners : List Nat) (st : Store) (now : Nat) :
    CopyOutcome :=
  if e.unicode = "" then
    { result := .error "Emoji object must have unicode property", store := st,
      notifications := [], addFailureLogged := false }
  else
    match clip with
    | .throws m =>
        { result := .error m, store := st,
          notifications := notifyListeners listeners
            { emoji := e, success := false, error := some m, timestamp := now },
          addFailureLogged := false }
    | .ret true =>
        let stepped :=
          if addToRecent then
            match addB with
            | .succeeds => (st.add e now, false)
            | .throws _ => (st, true)
          else (st, false)
        { result := .ok true, store := stepped.1,
          notifications := notifyListeners listeners
            { emoji := e, success := true, error := none, timestamp := now },
          addFailureLogged := stepped.2 }
    | .ret false =>
        { result := .ok false, store := st,
          notifications := notifyListeners listeners
            { emoji := e, success := false, error := some "Copy operation failed",
              timestamp := now },
          addFailureLogged := false }

/-! ### Reference rendering for the highlighting claim -/

/-- Modelled from the spec: "the first case-insensitive occurrence-marking of `term`
inside `name` …, wrapped in a designated highlight marker" — wraps only the FIRST
occurrence and leaves the rest of the text untouched, for comparison with the
source's global replacement. -/
def markFirst (term : List Char) : List Char → List Char
  | [] => []
  | c :: cs =>
      if term ≠ [] ∧ lcl (List.take term.length (c :: cs)) = lcl term then
        markOpen ++ List.take term.length (c :: cs) ++ markClose ++
          List.drop term.length (c :: cs)
      else c :: markFirst term cs

/-- Modelled from the spec: first-occurrence-only variant of `highlightText`. -/
def highlightFirstSpec (text searchTerm : String) : String :=
  if searchTerm == "" || text == "" then text
  else ⟨markFirst searchTerm.data text.data⟩

/-! ### Concrete inputs used by witnesses and counterexamples -/

def heartEmoji : Emoji := ⟨"❤", "red heart", "symbols", ["love", "heart"], "2764"⟩

def dogEmoji : Emoji := ⟨"🐶", "dog face", "animals-nature", ["pet"], "1F436"⟩

def hahaEmoji : Emoji := ⟨"😂", "haha", "smileys-emotion", [], "1F602"⟩

def hahaResult : SearchResult := ⟨hahaEmoji, getMatchInfo hahaEmoji "ha"⟩

def grinningRaw : RawRecord :=
  ⟨some "😀", some "grinning face", some "smileys-emotion", some (some ["happy"]),
    some "1F600", some 5⟩

def recMissingName : RawRecord :=
  ⟨some "😀", none, some "smileys-emotion", some (some ["happy"]), some "1F600", none⟩

def unloadedCatalog : CatalogState := ⟨[], [], false⟩

def heartStore : Store := ⟨[entryOfEmoji heartEmoji 0], 20⟩

end EmojiCopy

namespace EmojiCopy

/-! ### C2: load success reporting -/

/-- C2: outcome of `load` on each shape of stored value.  A missing key hydrates an
empty list with success, and parsed-but-invalid structure also reports success; but
unparseable content makes `load` return `false`, contradicting the claim (and the
repository's own test 10 in src/js/test-recently-used.js) that `load` always reports
success.  This theorem exhibits the divergence. -/
theorem load_unparseable_returns_failure :
    load 20 .missing = ⟨[], true⟩ ∧
    load 20 .parsedNonArray = ⟨[], true⟩ ∧
    load 20 .unparseable = ⟨[], false⟩ :=
  ⟨rfl, rfl, rfl⟩

/-! ### C5: save/load round trip -/

theorem roundtrip_filterMap (l : List Entry) :
    (l.map (fun en => RawElem.obj (entryToRaw en))).filterMap (fun el =>
      match el with
      | RawElem.obj r => if isValidEmojiObject (.obj r) then some (rawToEntry r) else none
      | RawElem.notObject => none) = l := by
  induction l with
  | nil => rfl
  | cons en t ih =>
      obtain ⟨u, n, c, k, cp, ts⟩ := en
      simp only [List.map_cons, List.filterMap_cons, entryToRaw, isValidEmojiObject,
        rawToEntry, Option.isSome_some, Bool.and_self, if_true, Option.getD_some]
      exact congrArg _ ih

/-- C5: for every entries list the store can hold (length within capacity — the only
states `add`/`setMaxEmojis`/`load` ever produce), `save()` followed by a fresh `load()`
of exactly what was written reproduces the same entries, with success. -/
theorem save_load_roundtrip (st : Store) (now : Nat)
    (h : st.entries.length ≤ st.maxEntries) :
    load st.maxEntries (st.save now) = ⟨st.entries, true⟩ := by
  obtain ⟨entries, maxEntries⟩ := st
  simp only [Store.save, load, roundtrip_filterMap, LoadResult.mk.injEq, and_true]
  exact List.take_of_length_le h

theorem save_load_roundtrip_witness :
    (Store.mk [entryOfEmoji heartEmoji 3, entryOfEmoji dogEmoji 1] 20).entries.length ≤
      (Store.mk [entryOfEmoji heartEmoji 3, entryOfEmoji dogEmoji 1] 20).maxEntries ∧
    load 20 ((Store.mk [entryOfEmoji heartEmoji 3, entryOfEmoji dogEmoji 1] 20).save 7) =
      ⟨[entryOfEmoji heartEmoji 3, entryOfEmoji dogEmoji 1], true⟩ :=
  ⟨by decide,
    save_load_roundtrip (Store.mk [entryOfEmoji heartEmoji 3, entryOfEmoji dogEmoji 1] 20)
      7 (by decide)⟩

/-! ### C7: validation coverage -/

/-- C7: any raw record missing at least one required field makes `parseEmojiData`
fail and `add` throw, both naming the first missing field in checking order;
a record with all five fields passes both validations. -/
theorem validation_names_first_missing_field (r : RawRecord) (st : Store) (now : Nat) :
    (missingFields r ≠ [] →
      ∃ f, firstMissing r = some f ∧ f ∈ missingFields r ∧
        parseEmojiData r = .error ("Missing required field: " ++ f) ∧
        st.addRecord r now = .error ("Emoji object missing required property: " ++ f)) ∧
    (missingFields r = [] →
      (∃ e, parseEmojiData r = .ok e) ∧ ∃ out, st.addRecord r now = .ok out) := by
  constructor
  · intro h
    rcases hm : missingFields r with _ | ⟨f, t⟩
    · exact absurd hm h
    · refine ⟨f, ?_, ?_, ?_, ?_⟩
      · simp [firstMissing, hm]
      · exact List.mem_cons_self f t
      · simp [parseEmojiData, firstMissing, hm]
      · simp [Store.addRecord, firstMissing, hm]
  · intro h
    have hf : firstMissing r = none := by simp [firstMissing, h]
    constructor
    · refine ⟨(⟨r.unicode.getD "", jsToLower (r.name.getD ""), r.category.getD "",
          (r.keywords.getD none).getD [], r.codepoint.getD ""⟩ : Emoji), ?_⟩
      unfold parseEmojiData
      rw [hf]
    · refine ⟨(st.add ⟨r.unicode.getD "", r.name.getD "", r.category.getD "",
          (r.keywords.getD none).getD [], r.codepoint.getD ""⟩ now, true), ?_⟩
      unfold Store.addRecord
      rw [hf]

theorem validation_names_first_missing_field_witness :
    (missingFields recMissingName ≠ [] ∧
      ∃ f, firstMissing recMissingName = some f ∧ f ∈ missingFields recMissingName ∧
        parseEmojiData recMissingName = .error ("Missing required field: " ++ f) ∧
        (freshStore 20).addRecord recMissingName 0 =
          .error ("Emoji object missing required property: " ++ f)) ∧
    (missingFields grinningRaw = [] ∧
      (∃ e, parseEmojiData grinningRaw = .ok e) ∧
      ∃ out, (freshStore 20).addRecord grinningRaw 0 = .ok out) :=
  ⟨⟨by decide,
      (validation_names_first_missing_field recMissingName (freshStore 20) 0).1 (by decide)⟩,
    ⟨by decide,
      (validation_names_first_missing_field grinningRaw (freshStore 20) 0).2 (by decide)⟩⟩

/-! ### C8: not-loaded guards -/

/-- C8 counterexample: in the unloaded state, `hasCategory` does not fail with the
not-loaded error (it has no `#isLoaded` check); it plainly returns `false`. -/
theorem hasCategory_no_notloaded_error :
    hasCategoryE unloadedCatalog "symbols" = .ok false ∧
    hasCategoryE unloadedCatalog "symbols" ≠ .error notLoadedMsg :=
  ⟨rfl, by decide⟩

/-- C8 amended: every listed query operation except `hasCategory` fails with the
not-loaded error in the unloaded state, while `hasCategory` just reports membership
of the current (unloaded) category set without failing. -/
theorem queries_require_loaded_except_hasCategory (st : CatalogState)
    (h : st.isLoaded = false) (c : String) (q pq : Option String) (limit : Nat) :
    getByCategory st c = .error notLoadedMsg ∧
    getAllCategories st = .error notLoadedMsg ∧
    searchCatalog st q = .error notLoadedMsg ∧
    getSearchSuggestions st pq limit = .error notLoadedMsg ∧
    getCategoryCount st c = .error notLoadedMsg ∧
    hasCategoryE st c = .ok (st.categories.contains c) := by
  simp [getByCategory, getAllCategories, searchCatalog, getSearchSuggestions,
    getCategoryCount, hasCategoryE, h]

theorem queries_require_loaded_except_hasCategory_witness :
    unloadedCatalog.isLoaded = false ∧
    (getByCategory unloadedCatalog "symbols" = .error notLoadedMsg ∧
      getAllCategories unloadedCatalog = .error notLoadedMsg ∧
      searchCatalog unloadedCatalog (some "heart") = .error notLoadedMsg ∧
      getSearchSuggestions unloadedCatalog (some "he") 5 = .error notLoadedMsg ∧
      getCategoryCount unloadedCatalog "symbols" = .error notLoadedMsg ∧
      hasCategoryE unloadedCatalog "symbols" = .ok (unloadedCatalog.categories.contains "symbols")) :=
  ⟨rfl, queries_require_loaded_except_hasCategory unloadedCatalog rfl "symbols"
    (some "heart") (some "he") 5⟩

/-! ### C9: copy coordination error handling -/

/-- C9: when the clipboard reports success and `addToRecent` is set, a throwing
`RecentlyUsed.add` is swallowed (logged) and `copyEmoji` still returns `true`; when
the clipboard itself throws, the error is delivered to every registered listener as a
`success: false` event carrying the message, and then re-thrown. -/
theorem copy_swallows_add_failure_and_rethrows_clipboard (e : Emoji)
    (addToRecent : Bool) (clip : ClipboardBehavior) (addB : AddBehavior)
    (listeners : List Nat) (st : Store) (now : Nat) (h : e.unicode ≠ "") :
    (∀ m, clip = .ret true → addToRecent = true → addB = .throws m →
      (copyEmoji e addToRecent clip addB listeners st now).result = .ok true ∧
      (copyEmoji e addToRecent clip addB listeners st now).store = st ∧
      (copyEmoji e addToRecent clip addB listeners st now).addFailureLogged = true) ∧
    (∀ m, clip = .throws m →
      (copyEmoji e addToRecent clip addB listeners st now).result = .error m ∧
      (copyEmoji e addToRecent clip addB listeners st now).notifications =
        notifyListeners listeners ⟨e, false, some m, now⟩ ∧
      ∀ l ∈ listeners, (l, (⟨e, false, some m, now⟩ : CopyEvent)) ∈
        (copyEmoji e addToRecent clip addB listeners st now).notifications) := by
  constructor
  · rintro m rfl rfl rfl
    simp [copyEmoji, h]
  · rintro m rfl
    refine ⟨by simp [copyEmoji, h], by simp [copyEmoji, h], ?_⟩
    intro l hl
    simp only [copyEmoji, if_neg h, notifyListeners, List.mem_map]
    exact ⟨l, hl, rfl⟩

theorem copy_swallows_add_failure_and_rethrows_clipboard_witness :
    heartEmoji.unicode ≠ "" ∧
    ((∀ m, ClipboardBehavior.ret true = .ret true → true = true →
        AddBehavior.throws "quota" = .throws m →
      (copyEmoji heartEmoji true (.ret true) (.throws "quota") [1, 2] (freshStore 20) 9).result = .ok true ∧
      (copyEmoji heartEmoji true (.ret true) (.throws "quota") [1, 2] (freshStore 20) 9).store = freshStore 20 ∧
      (copyEmoji heartEmoji true (.ret true) (.throws "quota") [1, 2] (freshStore 20) 9).addFailureLogged = true) ∧
    ∀ m, ClipboardBehavior.ret true = .throws m →
      (copyEmoji heartEmoji true (.ret true) (.throws "quota") [1, 2] (freshStore 20) 9).result = .error m ∧
      (copyEmoji heartEmoji true (.ret true) (.throws "quota") [1, 2] (freshStore 20) 9).notifications =
        notifyListeners [1, 2] ⟨heartEmoji, false, some m, 9⟩ ∧
      ∀ l ∈ [1, 2], (l, (⟨heartEmoji, false, some m, 9⟩ : CopyEvent)) ∈
        (copyEmoji heartEmoji true (.ret true) (.throws "quota") [1, 2] (freshStore 20) 9).notifications) :=
  ⟨by decide,
    copy_swallows_add_failure_and_rethrows_clipboard heartEmoji true (.ret true)
      (.throws "quota") [1, 2] (freshStore 20) 9 (by decide)⟩

/-! ### C3/C4: dedup-and-promote, uniqueness, capacity bound -/

theorem length_filter_lt_of_mem_not {α : Type _} {p : α → Bool} :
    ∀ {l : List α} {x : α}, x ∈ l → p x = false → (l.filter p).length < l.length := by
  intro l
  induction l with
  | nil => intro x hx _; cases hx
  | cons a t ih =>
      intro x hx hp
      have hle := List.length_filter_le p t
      rcases List.mem_cons.mp hx with rfl | hx'
      · have heq : (List.filter p (x :: t)).length = (List.filter p t).length := by
          simp [List.filter_cons, hp]
        simp only [List.length_cons]
        omega
      · have hlt := ih hx' hp
        rcases hpa : p a with _ | _
        · have heq : (List.filter p (a :: t)).length = (List.filter p t).length := by
            simp [List.filter_cons, hpa]
          simp only [List.length_cons]
          omega
        · have heq : (List.filter p (a :: t)).length = (List.filter p t).length + 1 := by
            simp [List.filter_cons, hpa]
          simp only [List.length_cons]
          omega

/-- `add` preserves uniqueness of entry unicodes. -/
theorem add_nodup_preserved (st : Store) (e : Emoji) (now : Nat)
    (h : (st.entries.map fun en => en.unicode).Nodup) :
    ((st.add e now).entries.map fun en => en.unicode).Nodup := by
  unfold Store.add
  simp only
  rw [List.map_take]
  apply List.Nodup.sublist (List.take_sublist _ _)
  rw [List.map_cons, List.nodup_cons]
  constructor
  · intro hmem
    obtain ⟨x, hx, hux⟩ := List.mem_map.mp hmem
    have := (List.mem_filter.mp hx).2
    simp only [entryOfEmoji] at hux this
    rw [hux] at this
    simp at this
  · exact List.Nodup.sublist ((List.filter_sublist _).map _) h

/-- Folding `add` over any sequence of emojis keeps unicodes unique. -/
theorem addSeq_nodup (pairs : List (Emoji × Nat)) :
    ∀ st : Store, ((st.entries.map fun en => en.unicode).Nodup) →
      (((pairs.foldl (fun s p => s.add p.1 p.2) st).entries.map
        fun en => en.unicode).Nodup) := by
  induction pairs with
  | nil => intro st h; exact h
  | cons p ps ih =>
      intro st h
      exact ih _ (add_nodup_preserved st p.1 p.2 h)

/-- C3 counterexample: `load` does not deduplicate by unicode — stored content with
a repeated well-formed record hydrates a store state holding the same unicode twice,
refuting the claim that no state produced by `load()` contains duplicates. -/
theorem load_preserves_duplicate_unicodes :
    ((load 20 (.parsedArray [.obj grinningRaw, .obj grinningRaw] "1.0" 0)).entries.map
      fun en => en.unicode) = ["😀", "😀"] ∧
    ¬ ((load 20 (.parsedArray [.obj grinningRaw, .obj grinningRaw] "1.0" 0)).entries.map
      fun en => en.unicode).Nodup :=
  ⟨rfl, by decide⟩

/-- C3 amended: `add` with an already-present unicode never increases the list length
and always places the fresh entry at index 0; `add` preserves uniqueness by unicode,
so every state reached from a fresh store by `add` calls is duplicate-free.  (`load`,
by contrast, only filters malformed entries and truncates — it does not deduplicate.) -/
theorem add_dedup_promote_and_unique (st : Store) (e : Emoji) (now : Nat) :
    (1 ≤ st.maxEntries →
      (st.add e now).entries.head? = some (entryOfEmoji e now)) ∧
    ((∃ x ∈ st.entries, x.unicode = e.unicode) →
      (st.add e now).entries.length ≤ st.entries.length) ∧
    ((st.entries.map fun en => en.unicode).Nodup →
      ((st.add e now).entries.map fun en => en.unicode).Nodup) ∧
    (∀ (pairs : List (Emoji × Nat)) (m : Nat),
      (((pairs.foldl (fun s p => s.add p.1 p.2) (freshStore m)).entries.map
        fun en => en.unicode).Nodup)) := by
  refine ⟨?_, ?_, add_nodup_preserved st e now, ?_⟩
  · intro h
    obtain ⟨k, hk⟩ : ∃ k, st.maxEntries = k + 1 := ⟨st.maxEntries - 1, by omega⟩
    simp [Store.add, hk, List.take_succ_cons]
  · rintro ⟨x, hx, hux⟩
    have hlt : (st.entries.filter
        fun existing => existing.unicode ≠ (entryOfEmoji e now).unicode).length <
        st.entries.length := by
      apply length_filter_lt_of_mem_not hx
      simp [entryOfEmoji, hux]
    simp only [Store.add, List.length_take, List.length_cons]
    omega
  · intro pairs m
    exact addSeq_nodup pairs (freshStore m) (by simp [freshStore])

theorem add_dedup_promote_and_unique_witness :
    (1 ≤ heartStore.maxEntries ∧
      (heartStore.add heartEmoji 5).entries.head? = some (entryOfEmoji heartEmoji 5)) ∧
    ((∃ x ∈ heartStore.entries, x.unicode = heartEmoji.unicode) ∧
      (heartStore.add heartEmoji 5).entries.length ≤ heartStore.entries.length) ∧
    ((heartStore.entries.map fun en => en.unicode).Nodup ∧
      ((heartStore.add heartEmoji 5).entries.map fun en => en.unicode).Nodup) :=
  ⟨⟨by decide, (add_dedup_promote_and_unique heartStore heartEmoji 5).1 (by decide)⟩,
    ⟨by decide, (add_dedup_promote_and_unique heartStore heartEmoji 5).2.1 (by decide)⟩,
    ⟨by decide, (add_dedup_promote_and_unique heartStore heartEmoji 5).2.2.1 (by decide)⟩⟩

/-- Folding `add` over distinct-unicode pairs builds exactly the reversed, truncated
entry list (accumulator form). -/
theorem addSeq_entries (m : Nat) :
    ∀ (pairs done : List (Emoji × Nat)) (st : Store),
      st.maxEntries = m →
      st.entries = ((done.map fun p => entryOfEmoji p.1 p.2).reverse).take m →
      (((done ++ pairs).map fun p => p.1.unicode).Nodup) →
      (pairs.foldl (fun s p => s.add p.1 p.2) st).entries =
        (((done ++ pairs).map fun p => entryOfEmoji p.1 p.2).reverse).take m := by
  intro pairs
  induction pairs with
  | nil =>
      intro done st h1 h2 _
      simpa using h2
  | cons p ps ih =>
      intro done st h1 h2 h3
      have hp : p.1.unicode ∉ done.map fun q => q.1.unicode := by
        rw [List.map_append] at h3
        have hdisj := (List.nodup_append.mp h3).2.2
        intro hmem
        exact hdisj hmem (by simp)
      have hu : ∀ x ∈ st.entries, x.unicode ≠ p.1.unicode := by
        intro x hx heq
        rw [h2] at hx
        have hx1 := List.mem_of_mem_take hx
        rw [List.mem_reverse] at hx1
        obtain ⟨q, hq, rfl⟩ := List.mem_map.mp hx1
        exact hp (heq ▸ List.mem_map_of_mem _ hq)
      have hstep : (st.add p.1 p.2).entries =
          (((done ++ [p]).map fun q => entryOfEmoji q.1 q.2).reverse).take m := by
        unfold Store.add
        simp only
        rw [List.filter_eq_self.mpr (fun a ha => by
          simpa [entryOfEmoji] using hu a ha), h1, h2]
        rw [List.map_append, List.reverse_append]
        simp only [List.map_cons, List.map_nil, List.reverse_cons, List.reverse_nil,
          List.nil_append, List.singleton_append]
        cases m with
        | zero => simp
        | succ k =>
            rw [List.take_succ_cons, List.take_succ_cons, List.take_take,
              Nat.min_eq_left (Nat.le_succ k)]
      have h1' : (st.add p.1 p.2).maxEntries = m := by
        simpa [Store.add] using h1
      have h3' : (((done ++ [p]) ++ ps).map fun q => q.1.unicode).Nodup := by
        simpa [List.append_assoc] using h3
      have := ih (done ++ [p]) (st.add p.1 p.2) h1' hstep h3'
      simpa [List.append_assoc] using this

/-- C4: after a fresh store of capacity `m` performs `add` for more than `m` pairwise
distinct emojis in order, `get()` returns exactly `m` entries — precisely the `m` most
recently added, most-recent-first. -/
theorem capacity_bound (m : Nat) (pairs : List (Emoji × Nat))
    (hnd : ((pairs.map fun p => p.1.unicode).Nodup))
    (hlen : m < pairs.length) :
    (pairs.foldl (fun s p => s.add p.1 p.2) (freshStore m)).get.length = m ∧
    (pairs.foldl (fun s p => s.add p.1 p.2) (freshStore m)).get =
      ((pairs.map fun p => p.1).reverse).take m := by
  have h := addSeq_entries m pairs [] (freshStore m) rfl (by simp [freshStore])
    (by simpa using hnd)
  simp only [List.nil_append] at h
  have hmap : (pairs.foldl (fun s p => s.add p.1 p.2) (freshStore m)).get =
      ((pairs.map fun p => p.1).reverse).take m := by
    rw [Store.get, h, List.map_take, List.map_reverse, List.map_map]
    rfl
  refine ⟨?_, hmap⟩
  rw [hmap]
  simp only [List.length_take, List.length_reverse, List.length_map]
  omega

theorem capacity_bound_witness :
    (([(heartEmoji, 0), (dogEmoji, 1), (hahaEmoji, 2)].map
      fun p => p.1.unicode).Nodup) ∧
    2 < ([(heartEmoji, 0), (dogEmoji, 1), (hahaEmoji, 2)] : List (Emoji × Nat)).length ∧
    (([(heartEmoji, 0), (dogEmoji, 1), (hahaEmoji, 2)].foldl
      (fun s p => s.add p.1 p.2) (freshStore 2)).get.length = 2 ∧
    ([(heartEmoji, 0), (dogEmoji, 1), (hahaEmoji, 2)].foldl
      (fun s p => s.add p.1 p.2) (freshStore 2)).get =
      (([(heartEmoji, 0), (dogEmoji, 1), (hahaEmoji, 2)].map
        fun p => p.1).reverse).take 2) :=
  ⟨by decide, by decide,
    capacity_bound 2 [(heartEmoji, 0), (dogEmoji, 1), (hahaEmoji, 2)]
      (by decide) (by decide)⟩

/-! ### C1: search membership and ranking -/

theorem searchLE_total (a b : MatchInfo) : searchLE a b || searchLE b a := by
  unfold searchLE
  rcases a with ⟨ai, ae, asw, ac1, ak, ahn, ahk⟩
  rcases b with ⟨bi, be, bsw, bc1, bk, bhn, bhk⟩
  simp only
  cases ae <;> cases be <;> cases asw <;> cases bsw <;> cases ac1 <;> cases bc1 <;>
    simp <;> omega

theorem searchLE_trans (a b c : MatchInfo) (h1 : searchLE a b) (h2 : searchLE b c) :
    searchLE a c := by
  unfold searchLE at h1 h2 ⊢
  rcases a with ⟨ai, ae, asw, ac1, ak, ahn, ahk⟩
  rcases b with ⟨bi, be, bsw, bc1, bk, bhn, bhk⟩
  rcases c with ⟨ci, ce, csw, cc1, ck, chn, chk⟩
  simp only at h1 h2 ⊢
  cases ae <;> cases be <;> cases ce <;> cases asw <;> cases bsw <;> cases csw <;>
    cases ac1 <;> cases bc1 <;> cases cc1 <;> simp_all <;> omega

theorem searchLE_of_tieKey_eq {a b : MatchInfo} (h : tieKey a = tieKey b) :
    searchLE a b := by
  unfold tieKey at h
  simp only [Prod.mk.injEq] at h
  obtain ⟨h1, h2, h3, h4⟩ := h
  simp [searchLE, h1, h2, h3, h4]

theorem search_eq_ranked (emojis : List Emoji) (q : String) (h : normTerm q ≠ "") :
    search emojis (some q) =
      .ranked ((searchMatches emojis (normTerm q)).mergeSort resultLE) := by
  have hq : ¬(q = "") := by
    intro hq0
    exact h (by rw [hq0]; rfl)
  show (if q = "" then SearchOutput.all emojis
    else if normTerm q = "" then SearchOutput.all emojis
    else .ranked ((searchMatches emojis (normTerm q)).mergeSort resultLE)) = _
  rw [if_neg hq, if_neg h]

theorem mem_searchMatches {emojis : List Emoji} {t : String} {e : Emoji}
    {mi : MatchInfo} :
    (⟨e, mi⟩ : SearchResult) ∈ searchMatches emojis t ↔
      e ∈ emojis ∧ mi = getMatchInfo e t ∧ (getMatchInfo e t).isMatch = true := by
  unfold searchMatches
  rw [List.mem_filterMap]
  constructor
  · rintro ⟨a, ha, hf⟩
    simp only at hf
    by_cases hm : (getMatchInfo a t).isMatch = true
    · rw [if_pos hm] at hf
      rw [Option.some_inj, SearchResult.mk.injEq] at hf
      obtain ⟨rfl, rfl⟩ := hf
      exact ⟨ha, rfl, hm⟩
    · rw [if_neg hm] at hf
      cases hf
  · rintro ⟨he, rfl, hm⟩
    exact ⟨e, he, by simp [hm]⟩

/-- C1: for a loaded catalog and a non-blank query, `search` returns ranked results
in which an emoji appears iff one of its match facets holds; the results are ordered
by the four-tier cascade (exact, starts-with, contains, then descending keyword-match
count), and for each tie-break tuple the results restricted to that tuple appear in
original catalog order (stability). -/
theorem search_membership_and_ranking (emojis : List Emoji) (q : String)
    (h : normTerm q ≠ "") :
    ∃ res, search emojis (some q) = .ranked res ∧
      (∀ e : Emoji, (∃ mi, (⟨e, mi⟩ : SearchResult) ∈ res) ↔
        (e ∈ emojis ∧ (getMatchInfo e (normTerm q)).isMatch = true)) ∧
      List.Pairwise (fun a b => resultLE a b = true) res ∧
      (∀ k : Bool × Bool × Bool × Nat,
        res.filter (fun r => tieKey r.matchInfo == k) =
          (searchMatches emojis (normTerm q)).filter
            (fun r => tieKey r.matchInfo == k)) := by
  refine ⟨(searchMatches emojis (normTerm q)).mergeSort resultLE,
    search_eq_ranked emojis q h, ?_, ?_, ?_⟩
  · intro e
    constructor
    · rintro ⟨mi, hmi⟩
      rw [List.mem_mergeSort] at hmi
      obtain ⟨he, _, hm⟩ := mem_searchMatches.mp hmi
      exact ⟨he, hm⟩
    · rintro ⟨he, hm⟩
      refine ⟨getMatchInfo e (normTerm q), ?_⟩
      rw [List.mem_mergeSort]
      exact mem_searchMatches.mpr ⟨he, rfl, hm⟩
  · simpa using @List.sorted_mergeSort SearchResult resultLE
      (fun a b c h1 h2 => searchLE_trans a.matchInfo b.matchInfo c.matchInfo h1 h2)
      (fun a b => searchLE_total a.matchInfo b.matchInfo)
      (searchMatches emojis (normTerm q))
  · intro k
    have hpw : ((searchMatches emojis (normTerm q)).filter
        (fun r => tieKey r.matchInfo == k)).Pairwise (fun a b => resultLE a b = true) := by
      apply List.pairwise_of_forall_mem_list
      intro x hx y hy
      have hxk : tieKey x.matchInfo = k := by
        simpa using (List.mem_filter.mp hx).2
      have hyk : tieKey y.matchInfo = k := by
        simpa using (List.mem_filter.mp hy).2
      exact searchLE_of_tieKey_eq (by rw [hxk, hyk])
    have hsub : List.Sublist
        ((searchMatches emojis (normTerm q)).filter (fun r => tieKey r.matchInfo == k))
        ((searchMatches emojis (normTerm q)).mergeSort resultLE) := by
      apply List.sublist_mergeSort
        (fun a b c h1 h2 => searchLE_trans a.matchInfo b.matchInfo c.matchInfo h1 h2)
        (fun a b => searchLE_total a.matchInfo b.matchInfo)
        (by simpa using hpw) (List.filter_sublist _)
    have hsub2 := hsub.filter (fun r => tieKey r.matchInfo == k)
    rw [List.filter_filter] at hsub2
    simp only [Bool.and_self] at hsub2
    have hperm := (List.mergeSort_perm (searchMatches emojis (normTerm q)) resultLE).filter
      (fun r => tieKey r.matchInfo == k)
    exact (hsub2.eq_of_length hperm.length_eq.symm).symm

theorem search_membership_and_ranking_witness :
    normTerm "heart" ≠ "" ∧
    (∃ res, search [heartEmoji, dogEmoji] (some "heart") = .ranked res ∧
      (∀ e : Emoji, (∃ mi, (⟨e, mi⟩ : SearchResult) ∈ res) ↔
        (e ∈ [heartEmoji, dogEmoji] ∧
          (getMatchInfo e (normTerm "heart")).isMatch = true)) ∧
      List.Pairwise (fun a b => resultLE a b = true) res ∧
      (∀ k : Bool × Bool × Bool × Nat,
        res.filter (fun r => tieKey r.matchInfo == k) =
          (searchMatches [heartEmoji, dogEmoji] (normTerm "heart")).filter
            (fun r => tieKey r.matchInfo == k))) :=
  ⟨by decide, search_membership_and_ranking [heartEmoji, dogEmoji] "heart" (by decide)⟩

/-! ### C6: highlighting marks every occurrence, not only the first -/

theorem markAllAux_congr (term : List Char) :
    ∀ (f g : Nat) (text : List Char), text.length ≤ f → text.length ≤ g →
      markAllAux term f text = markAllAux term g text := by
  intro f
  induction f with
  | zero =>
      intro g text hf _
      have htext : text = [] := List.eq_nil_of_length_eq_zero (Nat.le_zero.mp hf)
      subst htext
      cases g <;> rfl
  | succ f ih =>
      intro g text hf hg
      cases text with
      | nil => cases g <;> rfl
      | cons c cs =>
          cases g with
          | zero => simp at hg
          | succ g' =>
              have e1 : markAllAux term (f + 1) (c :: cs) =
                  if term ≠ [] ∧ lcl (List.take term.length (c :: cs)) = lcl term then
                    markOpen ++ List.take term.length (c :: cs) ++ markClose ++
                      markAllAux term f (List.drop term.length (c :: cs))
                  else c :: markAllAux term f cs := rfl
              have e2 : markAllAux term (g' + 1) (c :: cs) =
                  if term ≠ [] ∧ lcl (List.take term.length (c :: cs)) = lcl term then
                    markOpen ++ List.take term.length (c :: cs) ++ markClose ++
                      markAllAux term g' (List.drop term.length (c :: cs))
                  else c :: markAllAux term g' cs := rfl
              rw [e1, e2]
              by_cases hcond : term ≠ [] ∧ lcl (List.take term.length (c :: cs)) = lcl term
              · rw [if_pos hcond, if_pos hcond]
                have htl : 1 ≤ term.length := List.length_pos.mpr hcond.1
                have hlen1 : (List.drop term.length (c :: cs)).length ≤ f := by
                  rw [List.length_drop]
                  simp only [List.length_cons]
                  simp only [List.length_cons] at hf
                  omega
                have hlen2 : (List.drop term.length (c :: cs)).length ≤ g' := by
                  rw [List.length_drop]
                  simp only [List.length_cons]
                  simp only [List.length_cons] at hg
                  omega
                rw [ih g' (List.drop term.length (c :: cs)) hlen1 hlen2]
              · rw [if_neg hcond]
                rw [if_neg hcond]
                have hcs1 : cs.length ≤ f := by
                  simp only [List.length_cons] at hf
                  omega
                have hcs2 : cs.length ≤ g' := by
                  simp only [List.length_cons] at hg
                  omega
                rw [ih g' cs hcs1 hcs2]

theorem markAll_cons_of_match {term : List Char} {c : Char} {cs : List Char}
    (h : term ≠ [] ∧ lcl (List.take term.length (c :: cs)) = lcl term) :
    markAll term (c :: cs) = markOpen ++ List.take term.length (c :: cs) ++ markClose ++
      markAll term (List.drop term.length (c :: cs)) := by
  have htl : 1 ≤ term.length := List.length_pos.mpr h.1
  have e1 : markAll term (c :: cs) =
      if term ≠ [] ∧ lcl (List.take term.length (c :: cs)) = lcl term then
        markOpen ++ List.take term.length (c :: cs) ++ markClose ++
          markAllAux term cs.length (List.drop term.length (c :: cs))
      else c :: markAllAux term cs.length cs := rfl
  rw [e1, if_pos h]
  have hlen : (List.drop term.length (c :: cs)).length ≤ cs.length := by
    rw [List.length_drop]
    simp only [List.length_cons]
    omega
  rw [markAllAux_congr term cs.length (List.drop term.length (c :: cs)).length
    (List.drop term.length (c :: cs)) hlen (Nat.le_refl _)]
  rfl

theorem markAll_cons_of_not {term : List Char} {c : Char} {cs : List Char}
    (h : ¬(term ≠ [] ∧ lcl (List.take term.length (c :: cs)) = lcl term)) :
    markAll term (c :: cs) = c :: markAll term cs := by
  have e1 : markAll term (c :: cs) =
      if term ≠ [] ∧ lcl (List.take term.length (c :: cs)) = lcl term then
        markOpen ++ List.take term.length (c :: cs) ++ markClose ++
          markAllAux term cs.length (List.drop term.length (c :: cs))
      else c :: markAllAux term cs.length cs := rfl
  rw [e1, if_neg h]
  rfl

theorem ciMatchAt_zero {term text : List Char} :
    ciMatchAt term text 0 = true ↔ lcl (List.take term.length text) = lcl term := by
  simp [ciMatchAt]

theorem ciMatchAt_succ {term : List Char} {c : Char} {cs : List Char} {i : Nat} :
    ciMatchAt term (c :: cs) (i + 1) = ciMatchAt term cs i := rfl

theorem markAll_of_no_match (term : List Char) :
    ∀ text : List Char, (∀ i, ciMatchAt term text i = false) →
      markAll term text = text := by
  intro text
  induction text with
  | nil => intro _; rfl
  | cons c cs ih =>
      intro h
      have hcond : ¬(term ≠ [] ∧ lcl (List.take term.length (c :: cs)) = lcl term) := by
        rintro ⟨-, hm⟩
        have h0 : ciMatchAt term (c :: cs) 0 = true := ciMatchAt_zero.mpr hm
        rw [h 0] at h0
        cases h0
      rw [markAll_cons_of_not hcond,
        ih (fun i => by rw [← ciMatchAt_succ]; exact h (i + 1))]

theorem markAll_first_match (term : List Char) (hterm : term ≠ []) :
    ∀ (text : List Char) (i : Nat), ciMatchAt term text i = true →
      (∀ j, j < i → ciMatchAt term text j = false) →
      markAll term text = List.take i text ++ markOpen ++
        List.take term.length (List.drop i text) ++ markClose ++
        markAll term (List.drop (i + term.length) text) := by
  intro text
  induction text with
  | nil =>
      intro i hm _
      exfalso
      unfold ciMatchAt at hm
      rw [List.drop_nil, List.take_nil] at hm
      have h1 : lcl ([] : List Char) = lcl term := by simpa using hm
      have h2 : term = [] := by
        have h3 : lcl term = [] := h1.symm
        unfold lcl at h3
        exact List.map_eq_nil_iff.mp h3
      exact hterm h2
  | cons c cs ih =>
      intro i hm hmin
      cases i with
      | zero =>
          have hcond : term ≠ [] ∧ lcl (List.take term.length (c :: cs)) = lcl term :=
            ⟨hterm, ciMatchAt_zero.mp hm⟩
          rw [markAll_cons_of_match hcond]
          simp
      | succ i' =>
          have h0 : ciMatchAt term (c :: cs) 0 = false := hmin 0 (Nat.succ_pos i')
          have hcond : ¬(term ≠ [] ∧ lcl (List.take term.length (c :: cs)) = lcl term) := by
            rintro ⟨-, hmm⟩
            have := ciMatchAt_zero.mpr hmm
            rw [h0] at this
            cases this
          rw [markAll_cons_of_not hcond,
            ih i' (by rw [← ciMatchAt_succ]; exact hm)
              (fun j hj => by rw [← ciMatchAt_succ]; exact hmin (j + 1) (Nat.succ_lt_succ hj))]
          have hidx : i' + 1 + term.length = (i' + term.length) + 1 := by omega
          rw [hidx]
          simp [List.take_succ_cons, List.drop_succ_cons, List.cons_append]

/-- C6 counterexample: searching "ha" over a catalog holding the emoji named "haha"
yields a result whose `highlightedName` wraps BOTH occurrences of the term, differing
from the spec-modelled first-occurrence-only rendering. -/
theorem search_highlight_not_first_only :
    search [hahaEmoji] (some "ha") = .ranked [hahaResult] ∧
    hahaResult.matchInfo.highlightedName = "<mark>ha</mark><mark>ha</mark>" ∧
    highlightFirstSpec hahaEmoji.name "ha" = "<mark>ha</mark>ha" ∧
    hahaResult.matchInfo.highlightedName ≠ highlightFirstSpec hahaEmoji.name "ha" := by
  refine ⟨?_, by decide, by decide, by decide⟩
  have h1 : search [hahaEmoji] (some "ha") =
      .ranked ((searchMatches [hahaEmoji] (normTerm "ha")).mergeSort resultLE) :=
    search_eq_ranked [hahaEmoji] "ha" (by decide)
  have h2 : searchMatches [hahaEmoji] (normTerm "ha") = [hahaResult] := by decide
  rw [h1, h2, List.mergeSort_singleton]

/-- C6 amended: each search result's `highlightedName` (and highlighted keywords)
is the `highlightText` rendering of the normalised term, and that rendering wraps
EVERY leftmost non-overlapping case-insensitive occurrence of the term (matched
literally, character by character) in the `<mark>…</mark>` tags — not only the first:
below an occurrence-free text is left unchanged, and a text whose first occurrence
starts at index `i` is rendered by marking that occurrence and recursing on the
remainder after it. -/
theorem highlight_marks_every_occurrence (emojis : List Emoji) (q : String)
    (h : normTerm q ≠ "") :
    (∀ res r, search emojis (some q) = .ranked res → r ∈ res →
      r.matchInfo.highlightedName = highlightText r.emoji.name (normTerm q) ∧
      r.matchInfo.highlightedKeywords =
        (r.emoji.keywords.map jsToLower).map
          (fun k => highlightText k (normTerm q))) ∧
    (∀ term text : List Char, term ≠ [] →
      ((∀ i, ciMatchAt term text i = false) → markAll term text = text) ∧
      (∀ i, ciMatchAt term text i = true →
        (∀ j, j < i → ciMatchAt term text j = false) →
        markAll term text = List.take i text ++ markOpen ++
          List.take term.length (List.drop i text) ++ markClose ++
          markAll term (List.drop (i + term.length) text))) := by
  constructor
  · intro res r hres hr
    rw [search_eq_ranked emojis q h] at hres
    injection hres with hres'
    subst hres'
    rw [List.mem_mergeSort] at hr
    obtain ⟨e, mi⟩ := r
    obtain ⟨he, hmi, hm⟩ := mem_searchMatches.mp hr
    subst hmi
    exact ⟨rfl, rfl⟩
  · intro term text hterm
    exact ⟨markAll_of_no_match term text,
      fun i hm hmin => markAll_first_match term hterm text i hm hmin⟩

theorem highlight_marks_every_occurrence_witness :
    normTerm "ha" ≠ "" ∧
    ((∀ res r, search [hahaEmoji] (some "ha") = .ranked res → r ∈ res →
      r.matchInfo.highlightedName = highlightText r.emoji.name (normTerm "ha") ∧
      r.matchInfo.highlightedKeywords =
        (r.emoji.keywords.map jsToLower).map
          (fun k => highlightText k (normTerm "ha"))) ∧
    (∀ term text : List Char, term ≠ [] →
      ((∀ i, ciMatchAt term text i = false) → markAll term text = text) ∧
      (∀ i, ciMatchAt term text i = true →
        (∀ j, j < i → ciMatchAt term text j = false) →
        markAll term text = List.take i text ++ markOpen ++
          List.take term.length (List.drop i text) ++ markClose ++
          markAll term (List.drop (i + term.length) text)))) :=
  ⟨by decide, highlight_marks_every_occurrence [hahaEmoji] "ha" (by decide)⟩

/-! ### C10: contains/remove asymmetry on invalid input -/

/-- C10: for every null, empty-string, or non-string argument, `contains` returns
`false` without throwing while `remove` throws; for a valid (non-empty) string,
`contains` is true iff some stored entry has that unicode. -/
theorem contains_remove_invalid_asymmetry (st : Store) (a : JSArg) :
    (a.isInvalidUnicode = true →
      st.containsArg a = false ∧ st.removeArg a = .error "Invalid unicode provided") ∧
    (∀ s, a = .strArg s → s ≠ "" →
      (st.containsArg a = true ↔ ∃ en ∈ st.entries, en.unicode = s)) := by
  constructor
  · intro h
    constructor
    · simp [Store.containsArg, h]
    · simp [Store.removeArg, h]
  · rintro s rfl hs
    have h : (JSArg.strArg s).isInvalidUnicode = false := by
      simp [JSArg.isInvalidUnicode, hs]
    simp [Store.containsArg, h, List.any_eq_true]

theorem contains_remove_invalid_asymmetry_witness :
    ((JSArg.nullArg.isInvalidUnicode = true →
      (freshStore 20).containsArg .nullArg = false ∧
      (freshStore 20).removeArg .nullArg = .error "Invalid unicode provided") ∧
    ∀ s, JSArg.nullArg = .strArg s → s ≠ "" →
      ((freshStore 20).containsArg .nullArg = true ↔
        ∃ en ∈ (freshStore 20).entries, en.unicode = s)) ∧
    JSArg.nullArg.isInvalidUnicode = true ∧
    (freshStore 20).containsArg .nullArg = false ∧
    (freshStore 20).removeArg .nullArg = .error "Invalid unicode provided" :=
  ⟨contains_remove_invalid_asymmetry (freshStore 20) .nullArg,
    by decide,
    (contains_remove_invalid_asymmetry (freshStore 20) .nullArg).1 (by decide)⟩

end EmojiCopy
